import Mathlib

/-!
Verification of `livingpark_utils/dataset/ppmi.py`.

The Python module is shallowly embedded here:

* dates (`datetime.datetime` values as produced by `dateutil.parser.parse`
  on the date strings of the PPMI tables, whose time components are all
  midnight) become the structure `Date`;
* `dateutil.relativedelta.relativedelta(dt1, dt2)` (an external collaborator
  of the repository) is modelled by `relativedeltaMonths`, a faithful
  transcription of the year/month part of its constructor algorithm:
  the raw month difference is adjusted by a while loop comparing
  `dt2 + months` against `dt1`, and the total is split into `years` and
  `months` fields by `_set_months`;
* pandas data frames become lists of records, the `dict` built by
  `disease_duration` becomes a lookup function, `df.apply` with a lambda
  that can raise becomes `mapExcept`, and `np.nan` cells become `Option`;
* `glob.glob` becomes a filter of a list of path strings by a glob
  pattern matcher in which `*` matches any run of non-separator
  characters;
* CPython's `hash` on tuples of ints (the "language-default hash" used by
  `cohort_id`) is modelled by `pyHashTuple`, a transcription of the
  xxHash-style `tuplehash` of CPython >= 3.8 together with the modular
  `long_hash`, neither of which is randomized by `PYTHONHASHSEED`.
-/

/-- Calendar date.  Models a `datetime.datetime` whose time-of-day is
midnight, which is what `dateutil.parser.parse` returns on the date strings
appearing in the PPMI tables. -/
structure Date where
  year : Int
  month : Int
  day : Int
deriving DecidableEq

/-- Lexicographic order on dates; models `datetime` comparison (the time
components of all dates in play are equal, so they never decide). -/
def dateLtP (a b : Date) : Prop :=
  a.year < b.year ∨
    (a.year = b.year ∧
      (a.month < b.month ∨ (a.month = b.month ∧ a.day < b.day)))

instance (a b : Date) : Decidable (dateLtP a b) := by
  unfold dateLtP; infer_instance

/-- Boolean form of the date order, used by the loop of the
`relativedelta` constructor. -/
def dateLt (a b : Date) : Bool :=
  decide (dateLtP a b)

/-- Gregorian leap-year rule, as in Python's `calendar` module. -/
def isLeap (y : Int) : Bool :=
  (y % 4 == 0 && y % 100 != 0) || y % 400 == 0

/-- Number of days of a month; models `calendar.monthrange(y, m)[1]`. -/
def daysInMonth (y m : Int) : Int :=
  if m = 2 then (if isLeap y then 29 else 28)
  else if m = 4 ∨ m = 6 ∨ m = 9 ∨ m = 11 then 30
  else 31

/-- A date whose fields are in range. -/
def validDate (d : Date) : Prop :=
  1 ≤ d.month ∧ d.month ≤ 12 ∧ 1 ≤ d.day ∧ d.day ≤ daysInMonth d.year d.month

instance (d : Date) : Decidable (validDate d) := by
  unfold validDate; infer_instance

/-- Years field assigned by `relativedelta._set_months`: zero when the
total month count fits in `[-11, 11]`, otherwise the sign-adjusted quotient
of `divmod(months * sign, 12)`. -/
def smYears (k : Int) : Int :=
  if k.natAbs ≤ 11 then 0
  else if k < 0 then -((k.natAbs / 12 : Nat) : Int) else ((k.natAbs / 12 : Nat) : Int)

/-- Months field assigned by `relativedelta._set_months`: the total when it
fits in `[-11, 11]`, otherwise the sign-adjusted remainder of
`divmod(months * sign, 12)`. -/
def smMonths (k : Int) : Int :=
  if k.natAbs ≤ 11 then k
  else if k < 0 then -((k.natAbs % 12 : Nat) : Int) else ((k.natAbs % 12 : Nat) : Int)

/-- Shift a date by `ys` years and `ms` months with `ms ∈ [-11, 11]`,
clamping the day to the length of the landing month.  Models
`relativedelta.__radd__` applied to a datetime when only the `years` and
`months` fields of the delta are populated: the month sum wraps at most
once, and the day becomes `min(calendar.monthrange(y, m)[1], day)`. -/
def addYM (d : Date) (ys ms : Int) : Date :=
  let y1 := d.year + ys
  let m1 := d.month + ms
  let y2 := if 12 < m1 then y1 + 1 else if m1 < 1 then y1 - 1 else y1
  let m2 := if 12 < m1 then m1 - 12 else if m1 < 1 then m1 + 12 else m1
  ⟨y2, m2, min d.day (daysInMonth y2 m2)⟩

/-- Shift a date by a total of `k` months: `_set_months` splits `k` into
the `years` and `months` fields, then `__radd__` applies them. -/
def addMonths (d : Date) (k : Int) : Date :=
  addYM d (smYears k) (smMonths k)

/-- Upward adjustment loop of the `relativedelta(dt1, dt2)` constructor
for the case `dt1 < dt2`: `while dt1 > dt2 + months: months += 1`.  The
loop body provably runs at most once, so any fuel of at least 2 computes
the limit; `relativedeltaMonths` passes 24. -/
def rdUp (dt1 dt2 : Date) : Nat → Int → Int
  | 0, m => m
  | f + 1, m => if dateLt (addMonths dt2 m) dt1 then rdUp dt1 dt2 f (m + 1) else m

/-- Downward adjustment loop of the `relativedelta(dt1, dt2)` constructor
for the case `dt1 >= dt2`: `while dt1 < dt2 + months: months -= 1`.  The
loop body provably runs at most once, so any fuel of at least 2 computes
the limit; `relativedeltaMonths` passes 24. -/
def rdDown (dt1 dt2 : Date) : Nat → Int → Int
  | 0, m => m
  | f + 1, m => if dateLt dt1 (addMonths dt2 m) then rdDown dt1 dt2 f (m - 1) else m

/-- Total signed month count `12 * delta.years + delta.months` of
`relativedelta(dt1, dt2)`: the raw calendar month difference, adjusted by
the constructor's comparison loop. -/
def relativedeltaMonths (dt1 dt2 : Date) : Int :=
  let raw := (dt1.year - dt2.year) * 12 + (dt1.month - dt2.month)
  if dateLt dt1 dt2 then rdUp dt1 dt2 24 raw else rdDown dt1 dt2 24 raw

/-- The inner helper of `disease_duration`:

`delta = relativedelta(x, y); return abs(delta.years * 12) + abs(delta.months)`. -/
def abs_month_diff (x y : Date) : Int :=
  let total := relativedeltaMonths x y
  |smYears total * 12| + |smMonths total|

/-! Disease-duration engine.  `disease_duration` reads two CSV tables,
`PD_Diagnosis_History.csv` (columns `PATNO`, `EVENT_ID`, `PDDXDT`, with
`PDDXDT` possibly missing) and `MDS-UPDRS_Part_III.csv` (columns `PATNO`,
`EVENT_ID`, `INFODT`).  The file download and CSV reading are the external
collaborators; the rows they produce are the inputs of the model.  The
date parser `dateutil.parser.parse`, which raises on a malformed string,
is a parameter of type `String → Option Date`. -/

/-- Row of `PD_Diagnosis_History.csv` restricted to the three columns the
code reads.  A `none` in `PDDXDT` models a NaN cell. -/
structure DxRow where
  PATNO : Int
  EVENT_ID : String
  PDDXDT : Option String
deriving DecidableEq

/-- Row of `MDS-UPDRS_Part_III.csv` restricted to the three columns the
code reads. -/
structure ExamRow where
  PATNO : Int
  EVENT_ID : String
  INFODT : String
deriving DecidableEq

/-- Output row of `disease_duration` before the `_minimal` column drop.
`PDXDUR` is `none` where the code stores `np.nan`. -/
structure FullRow where
  PATNO : Int
  EVENT_ID : String
  INFODT : String
  PDDXDT : Option String
  PDXDUR : Option Int
deriving DecidableEq

/-- Output row of `disease_duration` after the `_minimal` column drop. -/
structure MinRow where
  PATNO : Int
  EVENT_ID : String
  PDXDUR : Option Int
deriving DecidableEq

/-- The filter `pddxdt[(pddxdt["EVENT_ID"] == "SC") & pddxdt["PDDXDT"].notna()]`. -/
def scFilter (rows : List DxRow) : List DxRow :=
  rows.filter (fun r => r.EVENT_ID == "SC" && r.PDDXDT.isSome)

/-- The mapping `dict(zip(pddxdt["PATNO"].values, pddxdt["PDDXDT"].values))`
over the filtered diagnosis rows: a later row with the same `PATNO`
overwrites an earlier one, exactly as repeated `dict` insertion does. -/
def PDDXDT_map (rows : List DxRow) : Int → Option String :=
  (scFilter rows).foldl
    (fun acc r => fun p => if p == r.PATNO then r.PDDXDT else acc p)
    (fun _ => none)

/-- Row-wise traversal that can fail, modelling `df.apply` with a lambda
that can raise: the first raising row aborts the whole computation and no
partial output escapes. -/
def mapExcept (f : α → Except Unit β) : List α → Except Unit (List β)
  | [] => .ok []
  | a :: l =>
    match f a with
    | .error e => .error e
    | .ok b =>
      match mapExcept f l with
      | .error e => .error e
      | .ok bs => .ok (b :: bs)

/-- The lambda applied to each exam row:

`abs_month_diff(parse(row["INFODT"]), parse(row["PDDXDT"])) if row["PDDXDT"] is not np.nan else np.nan`.

The condition is evaluated first, so on a row whose patient has no mapped
diagnosis date nothing is parsed; otherwise `parse` runs on both strings
and a parse failure raises. -/
def rowDuration (parse : String → Option Date) (m : Int → Option String)
    (r : ExamRow) : Except Unit FullRow :=
  match m r.PATNO with
  | none => .ok ⟨r.PATNO, r.EVENT_ID, r.INFODT, none, none⟩
  | some d =>
    match parse r.INFODT with
    | none => .error ()
    | some x =>
      match parse d with
      | none => .error ()
      | some y =>
        .ok ⟨r.PATNO, r.EVENT_ID, r.INFODT, some d, some (abs_month_diff x y)⟩

/-- In-memory part of `disease_duration` before the `_minimal` column
drop: build the patient-to-diagnosis-date mapping from the filtered
diagnosis table, attach it to every exam row, and apply the duration
lambda row by row. -/
def disease_duration_full (parse : String → Option Date)
    (dx : List DxRow) (exam : List ExamRow) : Except Unit (List FullRow) :=
  mapExcept (rowDuration parse (PDDXDT_map dx)) exam

/-- The `_minimal=True` column drop `pdxdur.drop(labels=["INFODT", "PDDXDT"], ...)`. -/
def toMin (r : FullRow) : MinRow :=
  ⟨r.PATNO, r.EVENT_ID, r.PDXDUR⟩

/-- In-memory part of `disease_duration` with the default `_minimal=True`:
the returned table keeps one row per exam row, with columns `PATNO`,
`EVENT_ID`, `PDXDUR`. -/
def disease_duration (parse : String → Option Date)
    (dx : List DxRow) (exam : List ExamRow) : Except Unit (List MinRow) :=
  (disease_duration_full parse dx exam).map (List.map toMin)

/-- Split a character list at every dash, used by the concrete ISO date
parser below. -/
def splitDashAux : List Char → List Char → List (List Char)
  | [], cur => [cur.reverse]
  | c :: rest, cur =>
    if c = '-' then cur.reverse :: splitDashAux rest []
    else splitDashAux rest (c :: cur)

/-- Value of a nonempty all-digit character list, `none` otherwise. -/
def digitsToNat? (cs : List Char) : Option Nat :=
  if cs.isEmpty then none
  else if cs.all Char.isDigit then
    some (cs.foldl (fun n c => n * 10 + (c.toNat - 48)) 0)
  else none

/-- Modelled from the spec: `dateutil.parser.parse` is an external
collaborator ("a standard date parser"); this concrete instance accepts
exactly the ISO dates `YYYY-MM-DD` with in-range month and day and rejects
everything else.  It instantiates the `parse` parameter of
`disease_duration` in concrete witnesses. -/
def parseISO (s : String) : Option Date :=
  match splitDashAux s.data [] with
  | [y, m, d] =>
    match digitsToNat? y, digitsToNat? m, digitsToNat? d with
    | some yn, some mn, some dn =>
      if 1 ≤ mn ∧ mn ≤ 12 ∧ 1 ≤ (dn : Int) ∧ (dn : Int) ≤ daysInMonth yn mn then
        some ⟨yn, mn, dn⟩
      else none
    | _, _, _ => none
  | _ => none

/-! Protocol description canonicalizer:

`re.sub(r"_+", "_", re.sub(r"[-\s()/]", "_", desc)).strip("_")`

with the character class of the inner regex written here with the hyphen
first; it is the same class as in the source. -/

/-- Character class of the inner regex: whitespace (modelled by
the ASCII whitespace characters `\s` matches), parentheses, forward slash
and hyphen. -/
def isSubChar (c : Char) : Bool :=
  c == ' ' || c == '\t' || c == '\n' || c == '\r' || c == '\x0b' || c == '\x0c' ||
    c == '(' || c == ')' || c == '/' || c == '-'

/-- The inner substitution `re.sub(r"[-\s()/]", "_", desc)` (character
class written here with the hyphen first, the same class as in the
source): each matched character is replaced by an underscore. -/
def subSpecial (cs : List Char) : List Char :=
  cs.map (fun c => if isSubChar c then '_' else c)

/-- The outer substitution `re.sub(r"_+", "_", s)`: every maximal run of
underscores collapses to a single underscore.  Dropping the first of each
adjacent underscore pair computes exactly that. -/
def collapseU : List Char → List Char
  | [] => []
  | [c] => [c]
  | c :: d :: rest =>
    if c = '_' && d = '_' then collapseU (d :: rest)
    else c :: collapseU (d :: rest)

/-- Underscore test for the strip step. -/
def isU (c : Char) : Bool :=
  c == '_'

/-- The final `.strip("_")`: remove leading and trailing underscores. -/
def stripU (cs : List Char) : List Char :=
  List.rdropWhile isU (List.dropWhile isU cs)

/-- The function `clean_protocol_description` of the source. -/
def clean_protocol_description (s : String) : String :=
  String.mk (stripU (collapseU (subSpecial s.data)))

/-! Imaging cache resolver.  `glob.glob(expression)` is modelled as the
filter of a list of existing file paths (the file-system collaborator) by
a glob matcher; in a glob pattern `*` matches any run of characters that
does not contain the path separator `/`. -/

/-- Fuel-indexed glob matcher; the fuel only bounds the recursion depth,
which `globMatch` instantiates past its maximum, `|pattern| + |path| + 1`.
A literal character matches itself and `*` matches any run of
non-separator characters. -/
def globMatchF : Nat → List Char → List Char → Bool
  | 0, _, _ => false
  | _ + 1, [], [] => true
  | _ + 1, [], _ :: _ => false
  | f + 1, '*' :: p, [] => globMatchF f p []
  | f + 1, '*' :: p, c :: s =>
    globMatchF f p (c :: s) || (c != '/' && globMatchF f ('*' :: p) s)
  | _ + 1, _ :: _, [] => false
  | f + 1, c :: p, d :: s => c == d && globMatchF f p s

/-- Glob pattern match of a path; every recursive step of `globMatchF`
shortens the pattern or the path, so this fuel is enough. -/
def globMatch (pat path : String) : Bool :=
  globMatchF (pat.data.length + path.data.length + 1) pat.data path.data

/-- The search pattern built by `find_nifti_file_in_cache`:

`os.path.join(cache_dir, base_dir, f"sub-{subject_id}", f"ses-{event_id}", "anat", f"PPMI_*{clean_protocol_description(protocol_description)}_br_raw_*.nii")`. -/
def niftiPattern (subject_id event_id protocol_description cache_dir base_dir : String) :
    String :=
  cache_dir ++ "/" ++ base_dir ++ "/sub-" ++ subject_id ++ "/ses-" ++ event_id ++
    "/anat/PPMI_*" ++ clean_protocol_description protocol_description ++ "_br_raw_*.nii"

/-- The list `files = glob.glob(expression)` over the file system `fs`,
kept in the order of `fs`. -/
def matchingFiles (fs : List String)
    (subject_id event_id protocol_description cache_dir base_dir : String) :
    List String :=
  fs.filter (fun f =>
    globMatch (niftiPattern subject_id event_id protocol_description cache_dir base_dir) f)

/-- The function `find_nifti_file_in_cache` of the source, over a file
system `fs`: one glob on the protocol-constrained pattern, then
`if len(files) > 1: return "" elif len(files) == 1: return files[0] else: return ""`.
The two empty-string branches also emit a `logging.warning`, a side effect
outside the model; no exception is raised in either. -/
def find_nifti_file_in_cache (fs : List String)
    (subject_id event_id protocol_description : String)
    (cache_dir : String := ".cache") (base_dir : String := "inputs") : String :=
  let files := matchingFiles fs subject_id event_id protocol_description cache_dir base_dir
  if files.length > 1 then ""
  else if files.length == 1 then files.headD ""
  else ""

/-! Cohort identifier:

`str(hash(tuple(sorted(cohort["PATNO"])))).replace("-", "_")`.

The `hash` is CPython's: `long_hash` reduces an int modulo `2^61 - 1`
preserving the sign, and `tuplehash` combines the item hashes with the
xxHash-style mixing loop over 64-bit words. -/

/-- CPython `long_hash`: reduce the magnitude modulo the Mersenne prime
`2^61 - 1`, keep the sign, and map the reserved error value `-1` to `-2`. -/
def pyHashInt (n : Int) : Int :=
  let p : Int := 2305843009213693951
  let h : Int := if n < 0 then -((-n) % p) else n % p
  if h = -1 then -2 else h

/-- The 64-bit word of an integer, two's complement. -/
def toU64 (i : Int) : Nat :=
  (i % 18446744073709551616).toNat

/-- Signed value of a 64-bit word, two's complement. -/
def ofU64 (n : Nat) : Int :=
  if n < 9223372036854775808 then (n : Int) else (n : Int) - 18446744073709551616

/-- CPython `_PyHASH_XXROTATE`: rotate a 64-bit word left by 31 bits. -/
def xxrotate (x : Nat) : Nat :=
  ((x <<< 31) % 18446744073709551616) ||| (x >>> 33)

/-- One iteration of the `tuplehash` loop on accumulator `acc` and item
hash word `lane`:
`acc += lane * _PyHASH_XXPRIME_2; acc = _PyHASH_XXROTATE(acc); acc *= _PyHASH_XXPRIME_1`,
all on 64-bit words. -/
def tupleHashStep (acc lane : Nat) : Nat :=
  (xxrotate ((acc + lane * 14029467366897019727) % 18446744073709551616) *
      11400714785074694791) % 18446744073709551616

/-- CPython `tuplehash` for a tuple of ints: fold the mixing step over the
item hashes starting from `_PyHASH_XXPRIME_5`, add
`len ^ (_PyHASH_XXPRIME_5 ^ 3527539)`, replace the reserved word `2^64 - 1`
by `1546275796`, and read the word as a signed 64-bit value. -/
def pyHashTuple (l : List Int) : Int :=
  let acc := l.foldl (fun acc x => tupleHashStep acc (toU64 (pyHashInt x))) 2870177450012600261
  let acc2 := (acc + (l.length ^^^ (2870177450012600261 ^^^ 3527539))) % 18446744073709551616
  ofU64 (if acc2 = 18446744073709551615 then 1546275796 else acc2)

/-- Python `sorted` on the `PATNO` column values: the ascending reordering
of the list, duplicates kept. -/
def sortedPatnos (l : List Int) : List Int :=
  l.insertionSort (fun a b => a ≤ b)

/-- Decimal digit characters of `n`, most significant first; models the
digits of Python `str` on a non-negative int.  The fuel `n + 1` dominates
the number of divisions by 10. -/
def natDigitsAux : Nat → Nat → List Char → List Char
  | 0, _, acc => acc
  | f + 1, n, acc =>
    let d := Char.ofNat (48 + n % 10)
    if n < 10 then d :: acc else natDigitsAux f (n / 10) (d :: acc)

/-- Decimal rendering of a natural number. -/
def natToDec (n : Nat) : List Char :=
  natDigitsAux (n + 1) n []

/-- Python `str` on an int: optional leading minus sign, then the decimal
digits of the magnitude. -/
def pyStr (i : Int) : List Char :=
  if i < 0 then '-' :: natToDec i.natAbs else natToDec i.natAbs

/-- The substitution `.replace("-", "_")`; the pattern is a single
character, so it is a character map. -/
def dashToUnderscore (c : Char) : Char :=
  if c = '-' then '_' else c

/-- The function `cohort_id` of the source, on the list of values of the
cohort's `PATNO` column. -/
def cohort_id (patnos : List Int) : String :=
  String.mk ((pyStr (pyHashTuple (sortedPatnos patnos))).map dashToUnderscore)

/-- Python `int(s)` acceptance for base 10 (the "parsed back as a plain
integer" reading): optional surrounding whitespace, an optional sign, then
digits in which single underscores may occur only between two digits. -/
def digitsRest : List Char → Bool
  | [] => true
  | '_' :: [] => false
  | '_' :: c :: rest => c.isDigit && digitsRest rest
  | c :: rest => c.isDigit && digitsRest rest

/-- Digit run of `int(s)`: at least one digit, then `digitsRest`. -/
def digitsPart : List Char → Bool
  | [] => false
  | c :: rest => c.isDigit && digitsRest rest

/-- Whitespace stripped by `int(s)` around the literal. -/
def isPySpace (c : Char) : Bool :=
  c == ' ' || c == '\t' || c == '\n' || c == '\r' || c == '\x0b' || c == '\x0c'

/-- Whether Python `int(s)` succeeds on `s` in base 10: strip surrounding
whitespace, accept one optional sign, then require a digit run. -/
def pyIntParseable (s : String) : Bool :=
  match List.rdropWhile isPySpace (List.dropWhile isPySpace s.data) with
  | [] => false
  | c :: rest => if c = '+' ∨ c = '-' then digitsPart rest else digitsPart (c :: rest)

/-- Underscore pairs never appear adjacently; the shape of the output of
`collapseU`. -/
def NoAdjU (l : List Char) : Prop :=
  List.Chain' (fun a b => ¬(a = '_' ∧ b = '_')) l

/-- Example diagnosis table of the specification's end-to-end property:
one screening row for patient 1 dated 2010-01-01. -/
def exDx : List DxRow :=
  [⟨1, "SC", some "2010-01-01"⟩]

/-- Example exam table of the specification's end-to-end property: one
visit each for patients 1 and 2, both dated 2010-06-01. -/
def exExam : List ExamRow :=
  [⟨1, "BL", "2010-06-01"⟩, ⟨2, "BL", "2010-06-01"⟩]

/-- Output of `disease_duration` on the example tables: duration 5 for
patient 1, undefined for patient 2. -/
def exOut : List MinRow :=
  [⟨1, "BL", some 5⟩, ⟨2, "BL", none⟩]

/-- Example cache content: a single file for subject 3001 at visit BL
whose name does not embed the protocol description "MPRAGE GRAPPA". -/
def exCache : List String :=
  [".cache/inputs/sub-3001/ses-BL/anat/PPMI_3001_FSPGR_br_raw_001.nii"]

/-! Lemmas on the relativedelta model. -/

theorem daysInMonth_ge (y m : Int) : 28 ≤ daysInMonth y m := by
  unfold daysInMonth
  split_ifs <;> omega

theorem addMonths_facts (d : Date) (hm : 1 ≤ d.month) (hM : d.month ≤ 12) (k : Int) :
    1 ≤ (addMonths d k).month ∧ (addMonths d k).month ≤ 12 ∧
      (addMonths d k).year * 12 + (addMonths d k).month = d.year * 12 + d.month + k := by
  simp only [addMonths, addYM, smYears, smMonths]
  split_ifs <;> refine ⟨by omega, by omega, by omega⟩

theorem addMonths_day (d : Date) (k : Int) :
    (addMonths d k).day = min d.day (daysInMonth (addMonths d k).year (addMonths d k).month) := by
  simp only [addMonths, addYM, smYears, smMonths]

theorem dateLtP_iff (a b : Date) (ham : 1 ≤ a.month) (haM : a.month ≤ 12)
    (hbm : 1 ≤ b.month) (hbM : b.month ≤ 12) :
    dateLtP a b ↔ (a.year * 12 + a.month < b.year * 12 + b.month ∨
      (a.year * 12 + a.month = b.year * 12 + b.month ∧ a.day < b.day)) := by
  unfold dateLtP
  omega

theorem rdUp_stop (dt1 dt2 : Date) (f : Nat) (m : Int)
    (h : dateLt (addMonths dt2 m) dt1 = false) : rdUp dt1 dt2 f m = m := by
  cases f with
  | zero => rfl
  | succ f => simp [rdUp, h]

theorem rdUp_go (dt1 dt2 : Date) (f : Nat) (m : Int)
    (h : dateLt (addMonths dt2 m) dt1 = true) :
    rdUp dt1 dt2 (f + 1) m = rdUp dt1 dt2 f (m + 1) := by
  simp [rdUp, h]

theorem rdDown_stop (dt1 dt2 : Date) (f : Nat) (m : Int)
    (h : dateLt dt1 (addMonths dt2 m) = false) : rdDown dt1 dt2 f m = m := by
  cases f with
  | zero => rfl
  | succ f => simp [rdDown, h]

theorem rdDown_go (dt1 dt2 : Date) (f : Nat) (m : Int)
    (h : dateLt dt1 (addMonths dt2 m) = true) :
    rdDown dt1 dt2 (f + 1) m = rdDown dt1 dt2 f (m - 1) := by
  simp [rdDown, h]

theorem relativedeltaMonths_eq (dt1 dt2 : Date)
    (h1m : 1 ≤ dt1.month) (h1M : dt1.month ≤ 12)
    (h2m : 1 ≤ dt2.month) (h2M : dt2.month ≤ 12) :
    relativedeltaMonths dt1 dt2 =
      if dt1.year * 12 + dt1.month < dt2.year * 12 + dt2.month ∨
          (dt1.year * 12 + dt1.month = dt2.year * 12 + dt2.month ∧ dt1.day < dt2.day) then
        (if min dt2.day (daysInMonth dt1.year dt1.month) < dt1.day then
          (dt1.year - dt2.year) * 12 + (dt1.month - dt2.month) + 1
        else (dt1.year - dt2.year) * 12 + (dt1.month - dt2.month))
      else
        (if dt1.day < min dt2.day (daysInMonth dt1.year dt1.month) then
          (dt1.year - dt2.year) * 12 + (dt1.month - dt2.month) - 1
        else (dt1.year - dt2.year) * 12 + (dt1.month - dt2.month)) := by
  obtain ⟨hb1, hb2, hidx⟩ :=
    addMonths_facts dt2 h2m h2M ((dt1.year - dt2.year) * 12 + (dt1.month - dt2.month))
  set raw := (dt1.year - dt2.year) * 12 + (dt1.month - dt2.month) with hrawdef
  have hyy : (addMonths dt2 raw).year = dt1.year := by omega
  have hmm2 : (addMonths dt2 raw).month = dt1.month := by omega
  have hday := addMonths_day dt2 raw
  rw [hyy, hmm2] at hday
  have hcondUpP : dateLtP (addMonths dt2 raw) dt1 ↔
      min dt2.day (daysInMonth dt1.year dt1.month) < dt1.day := by
    rw [dateLtP_iff _ _ hb1 hb2 h1m h1M, hday]
    omega
  have hcondDownP : dateLtP dt1 (addMonths dt2 raw) ↔
      dt1.day < min dt2.day (daysInMonth dt1.year dt1.month) := by
    rw [dateLtP_iff _ _ h1m h1M hb1 hb2, hday]
    omega
  simp only [relativedeltaMonths]
  rw [← hrawdef]
  by_cases hlt : dateLtP dt1 dt2
  · have hltb : dateLt dt1 dt2 = true := decide_eq_true hlt
    rw [if_pos hltb]
    by_cases hc : min dt2.day (daysInMonth dt1.year dt1.month) < dt1.day
    · have h1 : decide (dateLtP (addMonths dt2 raw) dt1) = true :=
        decide_eq_true (hcondUpP.2 hc)
      rw [show (24 : Nat) = 23 + 1 from rfl, rdUp_go _ _ _ _ h1]
      obtain ⟨hb1u, hb2u, hidxu⟩ := addMonths_facts dt2 h2m h2M (raw + 1)
      have h2 : dateLt (addMonths dt2 (raw + 1)) dt1 = false := by
        apply decide_eq_false
        rw [dateLtP_iff _ _ hb1u hb2u h1m h1M]
        omega
      rw [rdUp_stop _ _ _ _ h2]
      have houter := (dateLtP_iff dt1 dt2 h1m h1M h2m h2M).1 hlt
      rw [if_pos houter, if_pos hc]
    · have h1 : dateLt (addMonths dt2 raw) dt1 = false := by
        apply decide_eq_false
        intro hcontra
        exact hc (hcondUpP.1 hcontra)
      rw [rdUp_stop _ _ _ _ h1]
      have houter := (dateLtP_iff dt1 dt2 h1m h1M h2m h2M).1 hlt
      rw [if_pos houter, if_neg hc]
  · have hltb : dateLt dt1 dt2 = false := decide_eq_false hlt
    rw [if_neg (by simp [hltb])]
    by_cases hc : dt1.day < min dt2.day (daysInMonth dt1.year dt1.month)
    · have h1 : decide (dateLtP dt1 (addMonths dt2 raw)) = true :=
        decide_eq_true (hcondDownP.2 hc)
      rw [show (24 : Nat) = 23 + 1 from rfl, rdDown_go _ _ _ _ h1]
      obtain ⟨hb1u, hb2u, hidxu⟩ := addMonths_facts dt2 h2m h2M (raw - 1)
      have h2 : dateLt dt1 (addMonths dt2 (raw - 1)) = false := by
        apply decide_eq_false
        rw [dateLtP_iff _ _ h1m h1M hb1u hb2u]
        omega
      rw [rdDown_stop _ _ _ _ h2]
      have houter : ¬(dt1.year * 12 + dt1.month < dt2.year * 12 + dt2.month ∨
          (dt1.year * 12 + dt1.month = dt2.year * 12 + dt2.month ∧ dt1.day < dt2.day)) :=
        fun hcontra => hlt ((dateLtP_iff dt1 dt2 h1m h1M h2m h2M).2 hcontra)
      rw [if_neg houter, if_pos hc]
    · have h1 : dateLt dt1 (addMonths dt2 raw) = false := by
        apply decide_eq_false
        intro hcontra
        exact hc (hcondDownP.1 hcontra)
      rw [rdDown_stop _ _ _ _ h1]
      have houter : ¬(dt1.year * 12 + dt1.month < dt2.year * 12 + dt2.month ∨
          (dt1.year * 12 + dt1.month = dt2.year * 12 + dt2.month ∧ dt1.day < dt2.day)) :=
        fun hcontra => hlt ((dateLtP_iff dt1 dt2 h1m h1M h2m h2M).2 hcontra)
      rw [if_neg houter, if_neg hc]

theorem abs_month_diff_natAbs (x y : Date) :
    abs_month_diff x y = ((relativedeltaMonths x y).natAbs : Int) := by
  simp only [abs_month_diff, smYears, smMonths]
  set t := relativedeltaMonths x y
  split_ifs <;> rw [Int.abs_eq_natAbs, Int.abs_eq_natAbs] <;> omega

/-! Lemmas on the duration-engine model. -/

theorem mapExcept_ok_length {α β : Type} {f : α → Except Unit β} :
    ∀ {l : List α} {out : List β}, mapExcept f l = .ok out → out.length = l.length := by
  intro l
  induction l with
  | nil =>
    intro out h
    unfold mapExcept at h
    cases h
    rfl
  | cons a l ih =>
    intro out h
    unfold mapExcept at h
    cases hfa : f a with
    | error e => rw [hfa] at h; cases h
    | ok b =>
      rw [hfa] at h
      cases hml : mapExcept f l with
      | error e => rw [hml] at h; cases h
      | ok bs =>
        rw [hml] at h
        cases h
        simp [ih hml]

theorem mapExcept_ok_get {α β : Type} {f : α → Except Unit β} :
    ∀ {l : List α} {out : List β}, mapExcept f l = .ok out →
      ∀ i (h1 : i < l.length) (h2 : i < out.length),
        f (l.get ⟨i, h1⟩) = .ok (out.get ⟨i, h2⟩) := by
  intro l
  induction l with
  | nil =>
    intro out h i h1 h2
    exact absurd h1 (by simp)
  | cons a l ih =>
    intro out h i h1 h2
    unfold mapExcept at h
    cases hfa : f a with
    | error e => rw [hfa] at h; cases h
    | ok b =>
      rw [hfa] at h
      cases hml : mapExcept f l with
      | error e => rw [hml] at h; cases h
      | ok bs =>
        rw [hml] at h
        cases h
        cases i with
        | zero => simpa using hfa
        | succ j =>
          have hj1 : j < l.length := by simpa using h1
          have hj2 : j < bs.length := by simpa using h2
          simpa using ih hml j hj1 hj2

theorem mapExcept_error_of_mem {α β : Type} {f : α → Except Unit β} {l : List α} {a : α}
    (ha : a ∈ l) (hf : f a = .error ()) : mapExcept f l = .error () := by
  induction l with
  | nil => cases ha
  | cons b l ih =>
    unfold mapExcept
    cases hfb : f b with
    | error e => cases e; rfl
    | ok bb =>
      rcases List.mem_cons.1 ha with rfl | hmem
      · rw [hfb] at hf; cases hf
      · rw [ih hmem]

theorem rowDuration_ok {parse : String → Option Date} {m : Int → Option String}
    {r : ExamRow} {fr : FullRow} (h : rowDuration parse m r = .ok fr) :
    fr.PATNO = r.PATNO ∧ fr.EVENT_ID = r.EVENT_ID ∧
      (m r.PATNO = none → fr.PDXDUR = none) := by
  unfold rowDuration at h
  split at h
  · cases h
    exact ⟨rfl, rfl, fun _ => rfl⟩
  · rename_i d hm
    split at h
    · cases h
    · rename_i x hpi
      split at h
      · cases h
      · rename_i y hpd
        cases h
        exact ⟨rfl, rfl, fun hmm => by rw [hm] at hmm; cases hmm⟩

theorem disease_duration_ok {parse : String → Option Date} {dx : List DxRow}
    {exam : List ExamRow} {out : List MinRow}
    (h : disease_duration parse dx exam = .ok out) :
    ∃ fout : List FullRow, disease_duration_full parse dx exam = .ok fout ∧
      out = fout.map toMin := by
  unfold disease_duration at h
  cases hf : disease_duration_full parse dx exam with
  | error e => rw [hf] at h; cases h
  | ok fout =>
    rw [hf] at h
    cases h
    exact ⟨fout, rfl, rfl⟩

/-! Lemmas on the canonicalizer model. -/

theorem mem_subSpecial {cs : List Char} {c : Char} (h : c ∈ subSpecial cs) :
    isSubChar c = false := by
  rcases List.mem_map.1 h with ⟨a, _, rfl⟩
  cases ha : isSubChar a
  · simp [ha]
  · simp only [ha, if_true]
    decide

theorem subSpecial_eq_self {cs : List Char} (h : ∀ c ∈ cs, isSubChar c = false) :
    subSpecial cs = cs := by
  induction cs with
  | nil => rfl
  | cons a l ih =>
    have h1 : isSubChar a = false := h a (by simp)
    have h2 := ih (fun c hc => h c (by simp [hc]))
    simp only [subSpecial, List.map_cons, h1, Bool.false_eq_true, if_false] at h2 ⊢
    rw [h2]

theorem mem_collapseU : ∀ {cs : List Char} {c : Char}, c ∈ collapseU cs → c ∈ cs := by
  intro cs
  induction cs with
  | nil => intro c h; cases h
  | cons a l ih =>
    intro c h
    cases l with
    | nil => simpa [collapseU] using h
    | cons b t =>
      simp only [collapseU] at h
      split at h
      · exact List.mem_cons_of_mem _ (ih h)
      · rcases List.mem_cons.1 h with rfl | h2
        · exact List.mem_cons_self _ _
        · exact List.mem_cons_of_mem _ (ih h2)

theorem collapseU_head : ∀ (rest : List Char) (d : Char),
    (collapseU (d :: rest)).head? = some d := by
  intro rest
  induction rest with
  | nil => intro d; rfl
  | cons e t ih =>
    intro d
    simp only [collapseU]
    split
    · rename_i hcond
      rw [ih e]
      simp only [decide_eq_true_eq, Bool.and_eq_true] at hcond
      rw [hcond.1, hcond.2]
    · rfl

theorem collapseU_noAdj : ∀ cs : List Char, NoAdjU (collapseU cs) := by
  intro cs
  induction cs with
  | nil => simp [NoAdjU, collapseU]
  | cons a l ih =>
    cases l with
    | nil => simp [NoAdjU, collapseU]
    | cons b t =>
      simp only [collapseU]
      split
      · exact ih
      · rename_i hcond
        rw [NoAdjU, List.chain'_cons']
        refine ⟨?_, ih⟩
        intro y hy
        rw [collapseU_head t b] at hy
        simp only [Option.mem_def, Option.some.injEq] at hy
        subst hy
        simp only [Bool.and_eq_true, decide_eq_true_eq] at hcond
        exact fun hand => hcond ⟨hand.1, hand.2⟩

theorem collapseU_eq_self : ∀ {cs : List Char}, NoAdjU cs → collapseU cs = cs := by
  intro cs
  induction cs with
  | nil => intro _; rfl
  | cons a l ih =>
    intro h
    cases l with
    | nil => rfl
    | cons b t =>
      rw [NoAdjU, List.chain'_cons] at h
      simp only [collapseU]
      rw [if_neg, ih h.2]
      simp only [Bool.and_eq_true, decide_eq_true_eq]
      exact fun hand => h.1 hand

theorem stripU_subset {cs : List Char} {c : Char} (h : c ∈ stripU cs) : c ∈ cs := by
  unfold stripU at h
  have h1 := ( List.rdropWhile_prefix isU (List.dropWhile isU cs)).sublist.subset h
  exact (List.dropWhile_suffix isU).sublist.subset h1

theorem stripU_noAdj {cs : List Char} (h : NoAdjU cs) : NoAdjU (stripU cs) := by
  have h1 : NoAdjU (List.dropWhile isU cs) :=
    List.Chain'.suffix h (List.dropWhile_suffix isU)
  exact List.Chain'.prefix h1 ( List.rdropWhile_prefix isU (List.dropWhile isU cs))

theorem dropWhile_stripU (cs : List Char) :
    List.dropWhile isU (stripU cs) = stripU cs := by
  cases hX : stripU cs with
  | nil => rfl
  | cons x xs =>
    obtain ⟨t, ht⟩ := List.rdropWhile_prefix isU (List.dropWhile isU cs)
    rw [stripU] at hX
    rw [hX] at ht
    have hY : List.dropWhile isU cs = x :: (xs ++ t) := by rw [← ht]; simp
    have hnil : List.dropWhile isU cs ≠ [] := by rw [hY]; simp
    have hhead := List.head_dropWhile_not isU cs hnil
    simp only [hY, List.head_cons] at hhead
    rw [List.dropWhile_cons, if_neg (by simp [hhead])]

theorem stripU_idem (cs : List Char) : stripU (stripU cs) = stripU cs := by
  conv_lhs => rw [stripU]
  rw [dropWhile_stripU cs]
  conv_lhs => rw [stripU]
  rw [List.rdropWhile_idempotent]
  rfl

/-! Lemmas on the identifier model. -/

theorem natDigitsAux_digits : ∀ (fuel n : Nat) (acc : List Char),
    (∀ c ∈ acc, c.isDigit = true) → ∀ c ∈ natDigitsAux fuel n acc, c.isDigit = true := by
  intro fuel
  induction fuel with
  | zero => intro n acc hacc c hc; exact hacc c hc
  | succ f ih =>
    intro n acc hacc c hc
    have hd : (Char.ofNat (48 + n % 10)).isDigit = true := by
      have h10 : n % 10 < 10 := Nat.mod_lt _ (by norm_num)
      set k := n % 10 with hk
      interval_cases k <;> decide
    simp only [natDigitsAux] at hc
    split at hc
    · rcases List.mem_cons.1 hc with rfl | hc2
      · exact hd
      · exact hacc c hc2
    · refine ih (n / 10) _ ?_ c hc
      intro e he
      rcases List.mem_cons.1 he with rfl | he2
      · exact hd
      · exact hacc e he2

theorem natToDec_digits (n : Nat) : ∀ c ∈ natToDec n, c.isDigit = true :=
  natDigitsAux_digits (n + 1) n [] (by simp)

theorem map_dash_digits {ds : List Char} (h : ∀ c ∈ ds, c.isDigit = true) :
    ds.map dashToUnderscore = ds := by
  have hfix : ∀ c ∈ ds, dashToUnderscore c = c := by
    intro c hc
    unfold dashToUnderscore
    rw [if_neg]
    intro hcc
    exact absurd (hcc ▸ h c hc) (by decide)
  rw [List.map_congr_left hfix]
  exact List.map_id ds

theorem isPySpace_of_digit {c : Char} (h : c.isDigit = true) : isPySpace c = false := by
  cases hc : isPySpace c
  · rfl
  · unfold isPySpace at hc
    simp only [Bool.or_eq_true, beq_iff_eq] at hc
    rcases hc with ((((h1 | h1) | h1) | h1) | h1) | h1 <;> subst h1 <;>
      exact absurd h (by decide)

theorem pyIntParseable_underscore {ds : List Char} (h : ∀ c ∈ ds, c.isDigit = true) :
    pyIntParseable (String.mk ('_' :: ds)) = false := by
  have hns : ∀ c ∈ '_' :: ds, isPySpace c = false := by
    intro c hc
    rcases List.mem_cons.1 hc with rfl | hc2
    · decide
    · exact isPySpace_of_digit (h c hc2)
  have h1 : List.dropWhile isPySpace ('_' :: ds) = '_' :: ds := by
    rw [List.dropWhile_cons, if_neg (by simp [hns '_' (by simp)])]
  have h2 : List.rdropWhile isPySpace ('_' :: ds) = '_' :: ds := by
    rw [List.rdropWhile_eq_self_iff]
    intro hl
    simp [hns _ (List.getLast_mem hl)]
  unfold pyIntParseable
  rw [show (String.mk ('_' :: ds)).data = '_' :: ds from rfl, h1, h2]
  show (if ('_' : Char) = '+' ∨ ('_' : Char) = '-' then digitsPart ds
    else digitsPart ('_' :: ds)) = false
  rw [if_neg (by decide)]
  show (('_' : Char).isDigit && digitsRest ds) = false
  rw [show ('_' : Char).isDigit = false from by decide]
  rfl

/-! Claim theorems. -/

/-- C1 (counterexample).  The claim states that diagnosis date 2015-01-10
with exam date 2015-03-05 gives 2 months, and that dates in adjacent
months give exactly 1 regardless of day-of-month.  The code gives 1 for
the stated pair (the relativedelta decomposition is years/months/days, so
only whole elapsed calendar months count), and gives 0 for the adjacent
pair 2015-01-31 / 2015-02-01. -/
theorem C1_counterexample :
    abs_month_diff ⟨2015, 3, 5⟩ ⟨2015, 1, 10⟩ ≠ 2 ∧
    abs_month_diff ⟨2015, 2, 1⟩ ⟨2015, 1, 31⟩ ≠ 1 :=
  ⟨by decide, by decide⟩

/-- C1 (corrected).  `abs_month_diff` returns the absolute number of whole
calendar months between the dates (the `relativedelta` year/month fields
after day adjustment): two dates in the same month, whatever their days,
give 0; diagnosis date 2015-01-10 with exam date 2015-03-05 gives 1, not
2; adjacent months give 1 only when the later day-of-month has reached the
earlier one (2015-01-10 to 2015-02-10 gives 1, 2015-01-31 to 2015-02-01
gives 0). -/
theorem C1_month_decomposition :
    (∀ x y : Date, validDate x → validDate y → x.year = y.year → x.month = y.month →
      abs_month_diff x y = 0) ∧
    abs_month_diff ⟨2015, 3, 5⟩ ⟨2015, 1, 10⟩ = 1 ∧
    abs_month_diff ⟨2015, 2, 10⟩ ⟨2015, 1, 10⟩ = 1 ∧
    abs_month_diff ⟨2015, 2, 1⟩ ⟨2015, 1, 31⟩ = 0 := by
  refine ⟨?_, by decide, by decide, by decide⟩
  intro x y hx hy hyy hmm
  obtain ⟨hxm, hxM, hxd1, hxd2⟩ := hx
  obtain ⟨hym, hyM, hyd1, hyd2⟩ := hy
  rw [abs_month_diff_natAbs, relativedeltaMonths_eq x y hxm hxM hym hyM]
  rw [← hyy, ← hmm] at hyd2
  split_ifs <;> omega

/-- C1 (witness).  Two dates of June 2015 with different days have
duration 0. -/
theorem C1_month_decomposition_witness :
    abs_month_diff ⟨2015, 6, 20⟩ ⟨2015, 6, 3⟩ = 0 :=
  C1_month_decomposition.1 ⟨2015, 6, 20⟩ ⟨2015, 6, 3⟩ (by decide) (by decide) rfl rfl

/-- C7 (confirmed).  `clean_protocol_description` is idempotent. -/
theorem C7_idempotent (s : String) :
    clean_protocol_description (clean_protocol_description s) =
      clean_protocol_description s := by
  unfold clean_protocol_description
  rw [show (String.mk (stripU (collapseU (subSpecial s.data)))).data
      = stripU (collapseU (subSpecial s.data)) from rfl]
  set L := stripU (collapseU (subSpecial s.data)) with hL
  have hchars : ∀ c ∈ L, isSubChar c = false := by
    intro c hc
    rw [hL] at hc
    exact mem_subSpecial (mem_collapseU (stripU_subset hc))
  have hnoadj : NoAdjU L := by
    rw [hL]
    exact stripU_noAdj (collapseU_noAdj _)
  rw [subSpecial_eq_self hchars, collapseU_eq_self hnoadj, hL, stripU_idem]

/-- C8 (counterexample).  The duration is not symmetric in time direction
for every pair of dates: 2015-01-31 to 2015-02-28 is 1 whole month in one
direction (January 31 plus one month clamps to February 28) but 0 in the
other (February 28 minus one month is January 28, before January 31). -/
theorem C8_counterexample :
    abs_month_diff ⟨2015, 1, 31⟩ ⟨2015, 2, 28⟩ ≠
      abs_month_diff ⟨2015, 2, 28⟩ ⟨2015, 1, 31⟩ := by
  decide

/-- C8 (corrected).  Swapping the two dates preserves the magnitude
whenever no month-end day clamping can occur, in particular whenever both
days-of-month are at most 28; the counterexample's month-end clamping is
the only obstruction. -/
theorem C8_symmetric_small_days :
    ∀ x y : Date, validDate x → validDate y → x.day ≤ 28 → y.day ≤ 28 →
      abs_month_diff x y = abs_month_diff y x := by
  intro x y hx hy hx28 hy28
  obtain ⟨hxm, hxM, hxd1, hxd2⟩ := hx
  obtain ⟨hym, hyM, hyd1, hyd2⟩ := hy
  rw [abs_month_diff_natAbs, abs_month_diff_natAbs,
    relativedeltaMonths_eq x y hxm hxM hym hyM,
    relativedeltaMonths_eq y x hym hyM hxm hxM]
  have hd1 : min y.day (daysInMonth x.year x.month) = y.day :=
    min_eq_left (le_trans hy28 (daysInMonth_ge _ _))
  have hd2 : min x.day (daysInMonth y.year y.month) = x.day :=
    min_eq_left (le_trans hx28 (daysInMonth_ge _ _))
  rw [hd1, hd2]
  split_ifs <;> omega

/-- C8 (witness).  Swapping 2015-03-05 and 2017-01-10 gives the same
22-month magnitude in both directions. -/
theorem C8_symmetric_small_days_witness :
    abs_month_diff ⟨2015, 3, 5⟩ ⟨2017, 1, 10⟩ =
      abs_month_diff ⟨2017, 1, 10⟩ ⟨2015, 3, 5⟩ :=
  C8_symmetric_small_days ⟨2015, 3, 5⟩ ⟨2017, 1, 10⟩ (by decide) (by decide)
    (by decide) (by decide)

/-- C2 (code_bug).  The docstring of `find_nifti_file_in_cache` (and the
spec) promises a fallback: "If not found, search for nifti file matching
subject_id and event_id only, and return it if a single file is found."
The body performs a single glob on the protocol-constrained pattern and
returns the empty string on zero matches; no second search exists.  On a
cache holding exactly one file for subject 3001 at visit BL whose name
does not embed the cleaned protocol "MPRAGE_GRAPPA", the subject/event
pattern without the protocol matches exactly that one file, yet the
function returns the empty string. -/
theorem C2_missing_fallback :
    find_nifti_file_in_cache exCache "3001" "BL" "MPRAGE GRAPPA" ".cache" "inputs" = "" ∧
    matchingFiles exCache "3001" "BL" "" ".cache" "inputs" = exCache :=
  ⟨by decide, by decide⟩

/-- C3 (confirmed).  `find_nifti_file_in_cache` classifies the files
matching the single built pattern by count: exactly one match returns that
file's path, zero or more than one return the empty string.  The model
returns a plain `String`, so neither outcome raises; the diagnostics those
branches log are side effects outside the model. -/
theorem C3_classified_by_count :
    ∀ (fs : List String) (subject_id event_id protocol_description cache_dir base_dir :
      String),
      find_nifti_file_in_cache fs subject_id event_id protocol_description
          cache_dir base_dir =
        match matchingFiles fs subject_id event_id protocol_description
            cache_dir base_dir with
        | [f] => f
        | _ => "" := by
  intro fs sid eid pd cd bd
  simp only [find_nifti_file_in_cache]
  generalize matchingFiles fs sid eid pd cd bd = files
  match files with
  | [] => rfl
  | [f] => rfl
  | a :: b :: t =>
    rw [if_pos (by simp only [List.length_cons]; omega)]

/-- C4 (counterexample).  An input with a duplicated patient id and the
same input with duplicates removed hash differently: the sorted tuples
(1, 1) and (1,) are distinct, so the ids differ. -/
theorem C4_counterexample : cohort_id [1, 1] ≠ cohort_id [1] := by
  decide

/-- C4 (corrected).  `cohort_id` is a function of the multiset of patient
ids: permuting the input never changes the id, because the ids are sorted
before hashing.  Duplicates are not removed, so duplicate multiplicity can
change the id (see the counterexample). -/
theorem C4_permutation_invariant :
    ∀ l1 l2 : List Int, l1.Perm l2 → cohort_id l1 = cohort_id l2 := by
  intro l1 l2 h
  have hperm : (sortedPatnos l1).Perm (sortedPatnos l2) :=
    (List.perm_insertionSort _ l1).trans (h.trans (List.perm_insertionSort _ l2).symm)
  have hs1 : List.Sorted (fun a b : Int => a ≤ b) (sortedPatnos l1) :=
    List.sorted_insertionSort _ l1
  have hs2 : List.Sorted (fun a b : Int => a ≤ b) (sortedPatnos l2) :=
    List.sorted_insertionSort _ l2
  have hs : sortedPatnos l1 = sortedPatnos l2 :=
    List.eq_of_perm_of_sorted hperm hs1 hs2
  unfold cohort_id
  rw [hs]

/-- C4 (witness).  The cohorts [2, 1] and [1, 2] receive the same id. -/
theorem C4_permutation_invariant_witness : cohort_id [2, 1] = cohort_id [1, 2] :=
  C4_permutation_invariant [2, 1] [1, 2] (List.Perm.swap 1 2 [])

/-- C5 (counterexample).  The id of the cohort [2] hashes to a
non-negative value, so the returned string is a plain digit string and
Python's `int` parses it; the minus-to-underscore substitution does not
guarantee non-parseability for every possible hash value. -/
theorem C5_counterexample : pyIntParseable (cohort_id [2]) = true := by
  decide

/-- C5 (corrected).  The id never contains a minus sign; when the hash is
negative the substituted leading underscore makes the string unparseable
as an integer, but when the hash is non-negative the string is all digits
and parses. -/
theorem C5_no_minus :
    ∀ l : List Int,
      '-' ∉ (cohort_id l).data ∧
      (pyHashTuple (sortedPatnos l) < 0 → pyIntParseable (cohort_id l) = false) := by
  intro l
  constructor
  · intro hmem
    unfold cohort_id at hmem
    rw [show (String.mk ((pyStr (pyHashTuple (sortedPatnos l))).map dashToUnderscore)).data
        = (pyStr (pyHashTuple (sortedPatnos l))).map dashToUnderscore from rfl] at hmem
    rcases List.mem_map.1 hmem with ⟨a, _, ha⟩
    unfold dashToUnderscore at ha
    split_ifs at ha with hc
    · exact absurd ha (by decide)
    · exact hc ha
  · intro hneg
    unfold cohort_id
    rw [pyStr, if_pos hneg, List.map_cons,
      show dashToUnderscore '-' = '_' from by decide,
      map_dash_digits (natToDec_digits _)]
    exact pyIntParseable_underscore (natToDec_digits _)

/-- C5 (witness).  The id of the cohort [1] hashes to a negative value:
its id has no minus sign and does not parse as an integer. -/
theorem C5_no_minus_witness :
    '-' ∉ (cohort_id [1]).data ∧ pyIntParseable (cohort_id [1]) = false :=
  ⟨(C5_no_minus [1]).1, (C5_no_minus [1]).2 (by decide)⟩

/-- C6 (confirmed).  In the table returned by `disease_duration`, every
exam row whose patient has no entry in the screening diagnosis-date
mapping keeps its place in the output (one output row per exam row) and
receives an undefined duration, never zero. -/
theorem C6_undefined_duration :
    ∀ (parse : String → Option Date) (dx : List DxRow) (exam : List ExamRow)
      (out : List MinRow), disease_duration parse dx exam = .ok out →
      out.length = exam.length ∧
      ∀ i (h1 : i < exam.length) (h2 : i < out.length),
        PDDXDT_map dx (exam.get ⟨i, h1⟩).PATNO = none →
        (out.get ⟨i, h2⟩).PDXDUR = none := by
  intro parse dx exam out h
  obtain ⟨fout, hf, rfl⟩ := disease_duration_ok h
  unfold disease_duration_full at hf
  have hlen := mapExcept_ok_length hf
  refine ⟨by simpa using hlen, ?_⟩
  intro i h1 h2 hnone
  have h2f : i < fout.length := by simpa using h2
  have hrow := mapExcept_ok_get hf i h1 h2f
  have hnul := (rowDuration_ok hrow).2.2 hnone
  rw [List.get_map]
  exact hnul

/-- C6 (witness).  On the example tables, patient 2 has no diagnosis date:
its output row is present and carries an undefined duration. -/
theorem C6_undefined_duration_witness :
    exOut.length = exExam.length ∧ (exOut.get ⟨1, by decide⟩).PDXDUR = none := by
  have h := C6_undefined_duration parseISO exDx exExam exOut (by rfl)
  exact ⟨h.1, h.2 1 (by decide) (by decide) (by decide)⟩

/-- C9 (counterexample).  A malformed date string in the joined tables
does not necessarily abort the call: the date of an exam row whose patient
has no diagnosis date is never parsed, so the call succeeds and returns
that row with an undefined duration. -/
theorem C9_counterexample :
    parseISO "not-a-date" = none ∧
    disease_duration parseISO [] [⟨2, "BL", "not-a-date"⟩] = .ok [⟨2, "BL", none⟩] :=
  ⟨by rfl, by rfl⟩

/-- C9 (corrected).  When a date string that the computation actually
parses fails to parse — the exam date, or the mapped diagnosis date, of a
row whose patient has a diagnosis date — the whole `disease_duration` call
fails and no partial output is produced; rows without a diagnosis date
never have their date strings parsed. -/
theorem C9_parse_failure_aborts :
    ∀ (parse : String → Option Date) (dx : List DxRow) (exam : List ExamRow)
      (r : ExamRow) (d : String), r ∈ exam → PDDXDT_map dx r.PATNO = some d →
      (parse r.INFODT = none ∨ parse d = none) →
      disease_duration parse dx exam = .error () := by
  intro parse dx exam r d hmem hmap hfail
  have hrow : rowDuration parse (PDDXDT_map dx) r = .error () := by
    simp only [rowDuration, hmap]
    rcases hfail with h | h
    · rw [h]
    · cases hpi : parse r.INFODT with
      | none => rfl
      | some x => rw [h]
  unfold disease_duration disease_duration_full
  rw [mapExcept_error_of_mem hmem hrow]
  rfl

/-- C9 (witness).  Patient 1 has a diagnosis date and a malformed exam
date: the whole call errors. -/
theorem C9_parse_failure_aborts_witness :
    disease_duration parseISO exDx [⟨1, "BL", "not-a-date"⟩] = .error () :=
  C9_parse_failure_aborts parseISO exDx [⟨1, "BL", "not-a-date"⟩]
    ⟨1, "BL", "not-a-date"⟩ "2010-01-01" (by decide) (by rfl) (Or.inl (by rfl))

/-- C10 (confirmed).  The mapping join of `disease_duration` preserves the
exam table row for row: on success the output has exactly one row per exam
row, in order, with that row's patient id and event id unchanged,
regardless of the diagnosis table's contents. -/
theorem C10_rows_preserved :
    ∀ (parse : String → Option Date) (dx : List DxRow) (exam : List ExamRow)
      (out : List MinRow), disease_duration parse dx exam = .ok out →
      out.length = exam.length ∧
      ∀ i (h1 : i < exam.length) (h2 : i < out.length),
        (out.get ⟨i, h2⟩).PATNO = (exam.get ⟨i, h1⟩).PATNO ∧
        (out.get ⟨i, h2⟩).EVENT_ID = (exam.get ⟨i, h1⟩).EVENT_ID := by
  intro parse dx exam out h
  obtain ⟨fout, hf, rfl⟩ := disease_duration_ok h
  unfold disease_duration_full at hf
  have hlen := mapExcept_ok_length hf
  refine ⟨by simpa using hlen, ?_⟩
  intro i h1 h2
  have h2f : i < fout.length := by simpa using h2
  have hrow := mapExcept_ok_get hf i h1 h2f
  have hfields := rowDuration_ok hrow
  rw [List.get_map]
  exact ⟨hfields.1, hfields.2.1⟩

/-- C10 (witness).  On the example tables the output keeps both rows with
their patient and event ids. -/
theorem C10_rows_preserved_witness :
    exOut.length = exExam.length ∧
    (exOut.get ⟨0, by decide⟩).PATNO = (exExam.get ⟨0, by decide⟩).PATNO := by
  have h := C10_rows_preserved parseISO exDx exExam exOut (by rfl)
  exact ⟨h.1, (h.2 0 (by decide) (by decide)).1⟩
